import Mathlib

/-!
Verification of the output-assembly and file-set management core of the
`cheap_llm` terminal tool (Go sources: `context.go`, `exclude.go`, `main.go`)
against its natural-language specification.

The Go code is shallowly embedded: pure functions become Lean functions,
filesystem reads become explicit maps `String → Option _`, the clipboard sink
becomes a boolean success flag, and the history directory becomes a list of
file names.  Go strings are modelled as Lean `String`; Go's byte-wise string
comparison is modelled by a lexicographic comparison of the character list
(identical on the ASCII file names involved).
-/

/-! ## String helpers (models of Go's `strings` package functions) -/

/-- Model of Go `strings.HasPrefix(s, pre)`. -/
def goStartsWith (s pre : String) : Bool := pre.data.isPrefixOf s.data

/-- Model of Go `strings.HasSuffix(s, suf)`. -/
def goEndsWith (s suf : String) : Bool := suf.data.isSuffixOf s.data

/-- Model of Go `strings.TrimPrefix(s, pre)`: drops `pre` when it is a
leading segment of `s`, otherwise returns `s` unchanged. -/
def goTrimStart (s pre : String) : String :=
  if goStartsWith s pre then String.mk (s.data.drop pre.data.length) else s

/-- Byte-wise lexicographic `≤` on character lists; models Go's built-in
string comparison (`<`/`<=` compare bytes; on the ASCII strings handled by
this program, bytes and characters coincide). -/
def charListLe : List Char → List Char → Bool
  | [], _ => true
  | _ :: _, [] => false
  | a :: as, b :: bs => a.toNat < b.toNat || (a.toNat == b.toNat && charListLe as bs)

/-- Model of Go string comparison `a <= b`. -/
def goStrLe (a b : String) : Bool := charListLe a.data b.data

/-! ## `context.go`: the `Context` record and its file-set operations -/

/-- Model of the Go struct `Context` (`context.go`).  The YAML persistence
functions (`LoadContext`, `SaveContext`, ...) are external collaborators and
are out of scope. -/
structure Context where
  Name : String
  ProjectRoot : String
  ProjectContext : String
  Request : String
  Files : List String
deriving Repr, DecidableEq

/-- Model of `(*Context).AddFile` (`context.go:98`): appends `path` unless an
exactly equal string is already in `Files`; returns the updated context and
whether the path was added. -/
def Context.AddFile (ctx : Context) (path : String) : Context × Bool :=
  if ctx.Files.contains path then (ctx, false)
  else ({ ctx with Files := ctx.Files ++ [path] }, true)

/-- Model of `(*Context).RemoveFile` (`context.go:110`): keeps, in order,
every entry different from `path`. -/
def Context.RemoveFile (ctx : Context) (path : String) : Context :=
  { ctx with Files := ctx.Files.filter (fun f => f != path) }

/-- Model of `(*Context).RemoveFiles` (`context.go:121`): builds the set of
`paths` and keeps, in order, every entry not in that set. -/
def Context.RemoveFiles (ctx : Context) (paths : List String) : Context :=
  { ctx with Files := ctx.Files.filter (fun f => !paths.contains f) }

/-! ## `exclude.go`: glob matching, `ShouldExclude`, `ExpandDirectory` -/

/-- Fuel-driven glob match of one pattern segment against one path segment:
`*` matches any run of characters inside the segment, `?` matches one
character, other characters match literally.
Modelled from the spec: the repository calls `doublestar.Match` (an external
library whose source is not part of this repository); §4.1 of the spec fixes
its semantics — `*` matches within one path segment, `?` matches a single
character, `**` matches across segments.  The fuel only bounds recursion
(every call shrinks `pat.length + seg.length`); `matchSeg` supplies enough. -/
def matchSegF : Nat → List Char → List Char → Bool
  | 0, _, _ => false
  | _ + 1, [], [] => true
  | fuel + 1, '*' :: ps, s =>
    matchSegF fuel ps s || (!s.isEmpty && matchSegF fuel ('*' :: ps) s.tail)
  | fuel + 1, '?' :: ps, _ :: s => matchSegF fuel ps s
  | fuel + 1, p :: ps, c :: s => p == c && matchSegF fuel ps s
  | _ + 1, _, _ => false

/-- Glob match of a single pattern segment (see `matchSegF`). -/
def matchSeg (pat seg : List Char) : Bool :=
  matchSegF (pat.length + seg.length + 1) pat seg

/-- Fuel-driven segment-list glob match: a `**` pattern segment matches zero
or more whole path segments, any other pattern segment matches exactly one
path segment via `matchSeg`.  Modelled from the spec (§4.1), see `matchSegF`. -/
def matchSegsF : Nat → List (List Char) → List (List Char) → Bool
  | 0, _, _ => false
  | _ + 1, [], [] => true
  | fuel + 1, ['*', '*'] :: ps, segs =>
    matchSegsF fuel ps segs || (!segs.isEmpty && matchSegsF fuel (['*', '*'] :: ps) segs.tail)
  | fuel + 1, p :: ps, seg :: segs => matchSeg p seg && matchSegsF fuel ps segs
  | _ + 1, _, _ => false

/-- Splits a character list at `/` separators (model of splitting a slash
separated path or pattern into segments). -/
def splitCharsAux : List Char → List Char → List (List Char)
  | [], acc => [acc.reverse]
  | c :: cs, acc =>
    if c == '/' then acc.reverse :: splitCharsAux cs [] else splitCharsAux cs (c :: acc)

/-- Segments of a slash-separated string. -/
def pathSegs (s : String) : List String := (splitCharsAux s.data []).map String.mk

/-- Modelled from the spec: `doublestar.Match(pattern, path)` — glob match of
a whole slash-separated pattern against a whole slash-separated path
(§4.1 of the spec; the doublestar library itself is not in this repository). -/
def globMatch (pattern path : String) : Bool :=
  let ps := splitCharsAux pattern.data []
  let segs := splitCharsAux path.data []
  matchSegsF (ps.length + segs.length + 1) ps segs

/-- Model of Go `filepath.Base(path)` restricted to the non-empty,
non-trailing-slash paths this program walks: the final path segment. -/
def baseName (path : String) : String :=
  (splitCharsAux path.data []).reverse.headD [] |> String.mk

/-- Model of the Go struct `ExcludeRule` (`exclude.go`). -/
structure ExcludeRule where
  Name : String
  Patterns : List String
deriving Repr, DecidableEq

/-- Model of `(*ExcludeRule).ShouldExclude` (`exclude.go:77`): true when any
pattern matches the full path or its base name. -/
def ExcludeRule.ShouldExclude (exc : ExcludeRule) (path : String) : Bool :=
  exc.Patterns.any (fun pattern =>
    globMatch pattern path || globMatch pattern (baseName path))

/-- A directory tree, modelling the filesystem subtree that
`filepath.WalkDir` visits; entries of a directory are listed in the
(deterministic, name-sorted) order `WalkDir` reports them. -/
inductive FSEntry where
  | file : String → FSEntry
  | dir : String → List FSEntry → FSEntry
deriving Repr

/-- Name of a tree entry. -/
def FSEntry.name : FSEntry → String
  | .file n => n
  | .dir n _ => n

mutual

/-- Model of the `filepath.WalkDir` callback loop inside `ExpandDirectory`
(`exclude.go:96`): returns the list of paths on which the callback runs
(first component) and the collected regular-file paths (second component).
A directory whose path is excluded returns `filepath.SkipDir`: the callback
never runs on anything below it. -/
def walkTree (excl : String → Bool) (path : String) : FSEntry → List String × List String
  | .file _ => ([path], if excl path then [] else [path])
  | .dir _ entries =>
    if excl path then ([path], [])
    else
      let rs := walkEntries excl path entries
      (path :: rs.1, rs.2)

/-- Walks the entries of a directory in order, joining child names to the
directory path with `/` as `filepath.WalkDir` does. -/
def walkEntries (excl : String → Bool) (path : String) : List FSEntry → List String × List String
  | [] => ([], [])
  | e :: es =>
    let r := walkTree excl (path ++ "/" ++ e.name) e
    let rs := walkEntries excl path es
    (r.1 ++ rs.1, r.2 ++ rs.2)

end

/-- Model of `ExpandDirectory` (`exclude.go:93`): the files collected by the
walk of the tree `t` mounted at path `dir`, with a `nil` exclude rule
excluding nothing. -/
def ExpandDirectory (dir : String) (t : FSEntry) (exclude : Option ExcludeRule) : List String :=
  (walkTree
    (fun p => match exclude with
      | some exc => exc.ShouldExclude p
      | none => false)
    dir t).2

/-! ## `main.go`: file list, output assembly (`yank`) -/

/-- Model of the Go struct `FileInfo` (`main.go:40`), restricted to the
fields the assembly logic reads; `Project`, `RelPath` and `Selected` are
display-only state and are omitted. -/
structure FileInfo where
  Path : String
  Exists : Bool
  Size : Int
deriving Repr, DecidableEq

/-- Model of `(*Model).buildFileInfo` (`main.go:205`) restricted to the
fields kept in `FileInfo`: `stat` returns the size of an existing file and
`none` for a missing one (`os.Stat` error). -/
def buildFileInfo (stat : String → Option Int) (path : String) : FileInfo :=
  match stat path with
  | none => ⟨path, false, 0⟩
  | some sz => ⟨path, true, sz⟩

/-- Model of `(*Model).refreshFiles` (`main.go:161`): builds a `FileInfo`
for every context file and sorts the list by size descending
(`sort.Slice` with `Size i > Size j`; the Go sort is unstable so the order
of equal sizes is unspecified — insertion sort fixes one admissible order). -/
def refreshFiles (stat : String → Option Int) (ctx : Context) : List FileInfo :=
  List.insertionSort (fun a b => b.Size ≤ a.Size) (ctx.Files.map (buildFileInfo stat))

/-- The constant preamble written at the top of every assembled document
(`main.go:912`). -/
def preamble : String :=
  "This is a structured prompt for a software development task.\n\n<project_context> describes the project: its purpose, tech stack, architecture, and coding conventions. Use this to understand the broader context.\n\n<request> contains the specific task or question to address. This is what you should focus on accomplishing.\n\n<file> tags contain the relevant source files. Each file has a path attribute. Use these to understand the current implementation and make appropriate changes.\n\n---\n\n"

/-- The `<project_context>` block of the document (`main.go:925`): omitted
when the text is empty, otherwise the text with a newline appended exactly
when it does not already end in one. -/
def projectContextBlock (text : String) : String :=
  if text = "" then ""
  else
    "<project_context>\n" ++ text ++
      (if goEndsWith text "\n" then "" else "\n") ++ "</project_context>\n\n"

/-- The `<request>` block of the document (`main.go:935`), same shape as the
`<project_context>` block. -/
def requestBlock (text : String) : String :=
  if text = "" then ""
  else
    "<request>\n" ++ text ++
      (if goEndsWith text "\n" then "" else "\n") ++ "</request>\n\n"

/-- The display path written in a `<file>` tag (`main.go:967`): when
`ProjectRoot` is non-empty it is given a trailing `/` unless it already ends
in one, and a path starting with that prefix has it trimmed. -/
def displayPath (projectRoot path : String) : String :=
  if projectRoot != "" then
    let root := if goEndsWith projectRoot "/" then projectRoot else projectRoot ++ "/"
    if goStartsWith path root then goTrimStart path root else path
  else path

/-- One `<file>` block of the document (`main.go:979`): the raw content with
a newline appended exactly when the content is non-empty and its last byte
is not a newline (`len(content) > 0 && content[len(content)-1] != '\n'`). -/
def fileBlock (display content : String) : String :=
  "<file path=\"" ++ display ++ "\">\n" ++ content ++
    (if content.data ≠ [] ∧ content.data.getLast? ≠ some '\n' then "\n" else "") ++
    "</file>\n\n"

/-- Model of the Go struct `HistoryEntry` (`main.go:2369`); the wall-clock
`time.Time` timestamp is abstracted to a number supplied by the caller. -/
structure HistoryEntry where
  Timestamp : Nat
  ContextName : String
  ProjectContext : String
  Request : String
  Files : List String
deriving Repr, DecidableEq

/-- Observable outcome of one `yank`: the status message passed to
`setStatus`, the document handed to the clipboard sink (`none` when the
operation aborted before assembling it), and the history entry saved
(`none` when none was saved). -/
structure YankOutcome where
  status : String
  assembled : Option String
  history : Option HistoryEntry
deriving Repr, DecidableEq

/-- Model of `(*Model).yank` (`main.go:908`).  `fs` is `os.ReadFile`
(`none` = read error), `clipOk` tells whether `CopyToClipboard` (an external
collaborator, not in this repository's sources) succeeds, `now` is the
current time, `files` is the model's `m.files` list.  Faithful control flow:
when any listed file is marked missing the function returns the warning
status before assembling the file blocks, copying, or saving history; when
the clipboard copy fails it returns before saving history (the clipboard
error detail string is abstracted to a fixed message). -/
def yank (fs : String → Option String) (clipOk : Bool) (now : Nat)
    (ctx : Context) (files : List FileInfo) : YankOutcome :=
  let header := preamble ++ projectContextBlock ctx.ProjectContext ++ requestBlock ctx.Request
  let missing := files.filter (fun f => !f.Exists)
  if missing.length > 0 then
    { status := "Warning: " ++ toString missing.length ++ " file(s) missing"
      assembled := none
      history := none }
  else
    let doc := header ++ String.join (files.filterMap (fun f =>
      if !f.Exists then none
      else match fs f.Path with
        | none => none
        | some content => some (fileBlock (displayPath ctx.ProjectRoot f.Path) content)))
    if !clipOk then
      { status := "Clipboard error", assembled := some doc, history := none }
    else
      { status := "Yanked " ++ toString files.length ++ " files to clipboard"
        assembled := some doc
        history := some
          { Timestamp := now
            ContextName := ctx.Name
            ProjectContext := ctx.ProjectContext
            Request := ctx.Request
            Files := files.map (·.Path) } }

/-! ## `main.go`: history store -/

/-- Model of the constant `maxHistoryEntries` (`main.go:2366`). -/
def maxHistoryEntries : Nat := 100

/-- Model of `PruneHistory` (`main.go:2481`): the history directory is the
list of its file names; when more than `maxHistoryEntries` names end in
`.yaml`, the `count - maxHistoryEntries` lexicographically smallest `.yaml`
names are removed (Go sorts with `sort.Slice` on `<`; modelled by insertion
sort under byte-lexicographic `≤`). -/
def PruneHistory (entries : List String) : List String :=
  let yamlFiles := entries.filter (fun n => goEndsWith n ".yaml")
  if yamlFiles.length ≤ maxHistoryEntries then entries
  else
    let sorted := List.insertionSort (fun a b => goStrLe a b = true) yamlFiles
    let toDelete := sorted.take (yamlFiles.length - maxHistoryEntries)
    entries.filter (fun n => !toDelete.contains n)

/-- Model of `SaveHistoryEntry` (`main.go:2396`) at the storage-key level:
`key` is the generated file name (timestamp format plus sanitized context
name plus `.yaml`); `os.WriteFile` overwrites an existing name and creates a
new one otherwise, then the directory is pruned. -/
def SaveHistoryEntry (store : List String) (key : String) : List String :=
  PruneHistory (if store.contains key then store else store ++ [key])

/-- The project root with a trailing separator guaranteed, as both the code
(`main.go:970`) and the spec's matching rule ("treating the root as requiring
a trailing separator before matching") use it. -/
def ensureTrailingSep (root : String) : String :=
  if goEndsWith root "/" then root else root ++ "/"

/-- Display-path computation written from the spec's words (§4.4): "if
`project_root` is set and the file's absolute path starts with `project_root`
(treating the root as requiring a trailing separator before matching), strip
that prefix; otherwise use the absolute path unchanged."  Kept separate from
`displayPath` (translated from the code) to state their equivalence. -/
def specDisplayPath (projectRoot path : String) : String :=
  if projectRoot ≠ "" ∧ goStartsWith path (ensureTrailingSep projectRoot) = true then
    String.mk (path.data.drop (ensureTrailingSep projectRoot).data.length)
  else path

/-- The spec's §8.3 example tree: `/root` containing
`/root/node_modules/pkg/index.js` and `/root/src/main.go`. -/
def nodeModulesTree : FSEntry :=
  .dir "root"
    [.dir "node_modules" [.dir "pkg" [.file "index.js"]],
     .dir "src" [.file "main.go"]]

/-- An exclude rule holding the single pattern `**/node_modules/**`. -/
def nodeModulesRule : ExcludeRule := ⟨"default", ["**/node_modules/**"]⟩

/-- A history directory holding 100 distinct entries with storage keys
`b0.yaml` … `b99.yaml` (compact stand-ins for timestamp-prefixed keys, kept
short so concrete evaluation stays tractable; only their lexicographic
relationships matter). -/
def store100 : List String :=
  (List.range 100).map (fun i => "b" ++ toString i ++ ".yaml")

/-! ## Shared helper lemmas -/

theorem charListLe_total (a b : List Char) : charListLe a b = true ∨ charListLe b a = true := by
  induction a generalizing b with
  | nil => left; rfl
  | cons x xs ih =>
    cases b with
    | nil => right; rfl
    | cons y ys =>
      simp only [charListLe, Bool.or_eq_true, Bool.and_eq_true, decide_eq_true_eq, beq_iff_eq]
      rcases Nat.lt_trichotomy x.toNat y.toNat with h | h | h
      · left; left; exact h
      · rcases ih ys with h' | h'
        · left; right; exact ⟨h, h'⟩
        · right; right; exact ⟨h.symm, h'⟩
      · right; left; exact h

theorem charListLe_trans {a b c : List Char} (h₁ : charListLe a b = true)
    (h₂ : charListLe b c = true) : charListLe a c = true := by
  induction a generalizing b c with
  | nil => rfl
  | cons x xs ih =>
    cases b with
    | nil => simp [charListLe] at h₁
    | cons y ys =>
      cases c with
      | nil => simp [charListLe] at h₂
      | cons z zs =>
        simp only [charListLe, Bool.or_eq_true, Bool.and_eq_true, decide_eq_true_eq,
          beq_iff_eq] at h₁ h₂ ⊢
        rcases h₁ with h₁ | ⟨h₁e, h₁r⟩ <;> rcases h₂ with h₂ | ⟨h₂e, h₂r⟩
        · left; exact Nat.lt_trans h₁ h₂
        · left; exact h₂e ▸ h₁
        · left; exact h₁e ▸ h₂
        · right; exact ⟨h₁e.trans h₂e, ih h₁r h₂r⟩

theorem goEndsWith_append (s t : String) : goEndsWith (s ++ t) t = true := by
  rw [goEndsWith, List.isSuffixOf_iff_suffix]
  exact String.data_append s t ▸ List.suffix_append s.data t.data

theorem data_ne_nil_of_ne_empty {s : String} (h : s ≠ "") : s.data ≠ [] := by
  intro hd
  apply h
  cases s with
  | mk d => cases hd; rfl

theorem append_newline_ne_empty (r : String) : r ++ "\n" ≠ "" := by
  intro h
  have := congrArg String.data h
  simp at this

theorem AddFile_nodup (ctx : Context) (p : String) (h : ctx.Files.Nodup) :
    ((ctx.AddFile p).1).Files.Nodup := by
  rw [Context.AddFile]
  split
  · exact h
  · rename_i hc
    simp only [List.nodup_append, List.nodup_cons, List.not_mem_nil, not_false_eq_true,
      List.nodup_nil, and_true, List.disjoint_singleton]
    refine ⟨h, ?_⟩
    simpa using hc

theorem foldl_AddFile_nodup (paths : List String) (ctx : Context) (h : ctx.Files.Nodup) :
    ((paths.foldl (fun c p => (c.AddFile p).1) ctx).Files).Nodup := by
  induction paths generalizing ctx with
  | nil => exact h
  | cons q qs ih => exact ih _ (AddFile_nodup ctx q h)

theorem foldl_RemoveFile_eq (qs : List String) (ctx : Context) :
    qs.foldl (fun c p => c.RemoveFile p) ctx =
      { ctx with Files := ctx.Files.filter (fun f => !qs.contains f) } := by
  induction qs generalizing ctx with
  | nil => simp
  | cons q qs ih =>
    rw [List.foldl_cons, ih]
    simp only [Context.RemoveFile, List.filter_filter]
    congr 1
    apply List.filter_congr
    intro f _
    simp only [List.contains_cons, Bool.not_or, bne]
    exact Bool.and_comm _ _

/-! ## Claim theorems -/

/-- C4: starting from any duplicate-free context, any sequence of `AddFile`
calls keeps the file list duplicate-free; `AddFile path` appends exactly when
`path` is not already present under exact string comparison, returns `true`
exactly when it appended, and is the identity when it returns `false`. -/
theorem C4_addFile_dedup (ctx : Context) (path : String) (paths : List String)
    (h : ctx.Files.Nodup) :
    ((ctx.AddFile path).2 = true ↔ path ∉ ctx.Files)
    ∧ ((ctx.AddFile path).2 = true → (ctx.AddFile path).1.Files = ctx.Files ++ [path])
    ∧ ((ctx.AddFile path).2 = false → (ctx.AddFile path).1 = ctx)
    ∧ ((paths.foldl (fun c p => (c.AddFile p).1) ctx).Files).Nodup := by
  refine ⟨?_, ?_, ?_, foldl_AddFile_nodup paths ctx h⟩
  · rw [Context.AddFile]
    split <;> rename_i hc <;> simp_all
  · rw [Context.AddFile]
    split <;> simp_all
  · rw [Context.AddFile]
    split <;> simp_all

/-- Witness for C4 at a concrete context: adding `/a/b` to a context already
holding it is rejected, adding a fresh path appends it, and a fold with
duplicated paths stays duplicate-free. -/
theorem C4_addFile_dedup_witness :
    ((Context.AddFile ⟨"c", "", "", "", ["/a/b"]⟩ "/a/b").2 = true ↔
        "/a/b" ∉ (⟨"c", "", "", "", ["/a/b"]⟩ : Context).Files)
    ∧ ((Context.AddFile ⟨"c", "", "", "", ["/a/b"]⟩ "/a/b").2 = true →
        (Context.AddFile ⟨"c", "", "", "", ["/a/b"]⟩ "/a/b").1.Files = ["/a/b"] ++ ["/a/b"])
    ∧ ((Context.AddFile ⟨"c", "", "", "", ["/a/b"]⟩ "/a/b").2 = false →
        (Context.AddFile ⟨"c", "", "", "", ["/a/b"]⟩ "/a/b").1 = ⟨"c", "", "", "", ["/a/b"]⟩)
    ∧ ((["/a/./b", "/a/b", "/a/./b"].foldl (fun c p => (Context.AddFile c p).1)
        (⟨"c", "", "", "", ["/a/b"]⟩ : Context)).Files).Nodup :=
  C4_addFile_dedup ⟨"c", "", "", "", ["/a/b"]⟩ "/a/b" ["/a/./b", "/a/b", "/a/./b"] (by decide)

/-- C9: `RemoveFile` is idempotent on every context — also when `p` is
present and the first application actually removes it — and removing an
absent path is a no-op; `RemoveFiles` keeps exactly the entries outside the
given path set, in their original relative order (the result is a sublist of
the original list). -/
theorem C9_remove_idempotent (ctx : Context) (p : String) (paths : List String) :
    (ctx.RemoveFile p).RemoveFile p = ctx.RemoveFile p
    ∧ (p ∉ ctx.Files → ctx.RemoveFile p = ctx)
    ∧ (ctx.RemoveFiles paths).Files.Sublist ctx.Files
    ∧ (∀ f, f ∈ (ctx.RemoveFiles paths).Files ↔ f ∈ ctx.Files ∧ f ∉ paths) := by
  refine ⟨?_, ?_, ?_, ?_⟩
  · simp only [Context.RemoveFile, List.filter_filter, Bool.and_self]
  · intro habs
    simp only [Context.RemoveFile]
    have : ctx.Files.filter (fun f => f != p) = ctx.Files :=
      List.filter_eq_self.mpr (fun f hf => by
        simp only [bne_iff_ne, ne_eq, decide_eq_true_eq]
        exact fun hfp => habs (hfp ▸ hf))
    rw [this]
  · exact List.filter_sublist _
  · intro f
    simp [Context.RemoveFiles, List.mem_filter]

/-- Witness for C9: removing the *present* path `/a` twice equals removing
it once, removing the absent path `/z` is a no-op, and bulk removal of `/a`
keeps exactly `/b`. -/
theorem C9_remove_idempotent_witness :
    ((⟨"c", "", "", "", ["/a", "/b"]⟩ : Context).RemoveFile "/a").RemoveFile "/a" =
        (⟨"c", "", "", "", ["/a", "/b"]⟩ : Context).RemoveFile "/a"
    ∧ (⟨"c", "", "", "", ["/a", "/b"]⟩ : Context).RemoveFile "/z" = ⟨"c", "", "", "", ["/a", "/b"]⟩
    ∧ (∀ f, f ∈ ((⟨"c", "", "", "", ["/a", "/b"]⟩ : Context).RemoveFiles ["/a"]).Files ↔
        f ∈ (⟨"c", "", "", "", ["/a", "/b"]⟩ : Context).Files ∧ f ∉ ["/a"]) :=
  ⟨(C9_remove_idempotent ⟨"c", "", "", "", ["/a", "/b"]⟩ "/a" ["/a"]).1,
    (C9_remove_idempotent ⟨"c", "", "", "", ["/a", "/b"]⟩ "/z" ["/a"]).2.1 (by decide),
    (C9_remove_idempotent ⟨"c", "", "", "", ["/a", "/b"]⟩ "/a" ["/a"]).2.2.2⟩

/-- C10: bulk removal refines one-at-a-time removal — folding `RemoveFile`
over the paths in any order yields exactly the context `RemoveFiles` builds
in one pass. -/
theorem C10_removeFiles_refines_fold (ctx : Context) (paths qs : List String)
    (h : paths.Perm qs) :
    qs.foldl (fun c p => c.RemoveFile p) ctx = ctx.RemoveFiles paths := by
  rw [foldl_RemoveFile_eq, Context.RemoveFiles]
  congr 1
  apply List.filter_congr
  intro f _
  have : f ∈ qs ↔ f ∈ paths := h.symm.mem_iff
  cases hq : qs.contains f <;> cases hp : paths.contains f <;>
    simp_all [List.contains, List.elem_iff]

/-- Witness for C10: removing `["/a", "/c"]` in reversed order one at a time
equals the single-pass bulk removal. -/
theorem C10_removeFiles_refines_fold_witness :
    ["/c", "/a"].foldl (fun c p => Context.RemoveFile c p)
        (⟨"c", "", "", "", ["/a", "/b", "/c"]⟩ : Context) =
      (⟨"c", "", "", "", ["/a", "/b", "/c"]⟩ : Context).RemoveFiles ["/a", "/c"] :=
  C10_removeFiles_refines_fold ⟨"c", "", "", "", ["/a", "/b", "/c"]⟩ ["/a", "/c"] ["/c", "/a"]
    (by decide)

/-- C6 counterexample: the claim says a newline is appended to a `<file>`
block exactly when the content does not already end in one; empty content
does not end in a newline, yet the code (`len(content) > 0 && ...`) appends
nothing, so the block the claim predicts is not the block produced. -/
theorem C6_counterexample_empty_content :
    fileBlock "p" "" = "<file path=\"p\">\n</file>\n\n"
    ∧ ("" : String).data.getLast? ≠ some '\n'
    ∧ fileBlock "p" "" ≠ "<file path=\"p\">\n\n</file>\n\n" := by
  refine ⟨rfl, by decide, by decide⟩

/-- C6 (amended): trailing-newline normalization.  For every non-empty
request text the emitted block is `<request>\n`, the text, exactly one
trailing newline (added only when absent, never duplicated), `</request>\n\n`
— so `"task"` and `"task\n"` yield identical output; the same holds for the
`<project_context>` block, and for each `<file>` block with *non-empty*
content, while empty file content gets no appended newline. -/
theorem C6_trailing_newline_normalization (r : String) (hne : r ≠ "")
    (hnl : goEndsWith r "\n" = false) :
    requestBlock "task" = "<request>\ntask\n</request>\n\n"
    ∧ requestBlock "task\n" = "<request>\ntask\n</request>\n\n"
    ∧ requestBlock r = "<request>\n" ++ r ++ "\n</request>\n\n"
    ∧ requestBlock (r ++ "\n") = requestBlock r
    ∧ projectContextBlock r = "<project_context>\n" ++ r ++ "\n</project_context>\n\n"
    ∧ projectContextBlock (r ++ "\n") = projectContextBlock r
    ∧ (∀ p c : String, c ≠ "" → c.data.getLast? ≠ some '\n' →
        fileBlock p c = "<file path=\"" ++ p ++ "\">\n" ++ c ++ "\n</file>\n\n"
        ∧ fileBlock p (c ++ "\n") = fileBlock p c)
    ∧ (∀ p : String, fileBlock p "" = "<file path=\"" ++ p ++ "\">\n</file>\n\n") := by
  have happ : ∀ s : String, goEndsWith (s ++ "\n") "\n" = true := fun s =>
    goEndsWith_append s "\n"
  refine ⟨by decide, by decide, ?_, ?_, ?_, ?_, ?_, ?_⟩
  · rw [requestBlock, if_neg hne, hnl]
    apply String.ext
    simp
  · rw [requestBlock, if_neg (append_newline_ne_empty r), happ,
      requestBlock, if_neg hne, hnl]
    apply String.ext
    simp
  · rw [projectContextBlock, if_neg hne, hnl]
    apply String.ext
    simp
  · rw [projectContextBlock, if_neg (append_newline_ne_empty r), happ,
      projectContextBlock, if_neg hne, hnl]
    apply String.ext
    simp
  · intro p c hc hcl
    constructor
    · rw [fileBlock, if_pos ⟨data_ne_nil_of_ne_empty hc, hcl⟩]
      apply String.ext
      simp
    · have h1 : (c ++ "\n").data ≠ [] := by simp
      have h2 : (c ++ "\n").data.getLast? = some '\n' := by simp
      rw [fileBlock, if_neg (by simp [h2]), fileBlock,
        if_pos ⟨data_ne_nil_of_ne_empty hc, hcl⟩]
      apply String.ext
      simp
  · intro p
    rw [fileBlock, if_neg (by simp)]
    apply String.ext
    simp

/-- Witness for C6 at `r = "task"`: the concrete normalization facts. -/
theorem C6_trailing_newline_normalization_witness :
    requestBlock ("task" ++ "\n") = requestBlock "task"
    ∧ fileBlock "p" ("body" ++ "\n") = fileBlock "p" "body" :=
  ⟨(C6_trailing_newline_normalization "task" (by decide) (by decide)).2.2.2.1,
    ((C6_trailing_newline_normalization "task" (by decide) (by decide)).2.2.2.2.2.2.1
      "p" "body" (by decide) (by decide)).2⟩




/-- C7: the emitted display path strips the project root exactly when the
root is set and the path starts with the root followed by a path separator;
the code agrees with the spec's wording, `project_root=/a/b` relativizes
`/a/b/c` but leaves `/a/bc` (and `/a/b` itself) unchanged, and the spec's
§8.4 examples hold. -/
theorem C7_display_path_stripping (root path : String) :
    displayPath root path = specDisplayPath root path
    ∧ (root ≠ "" → goStartsWith path (ensureTrailingSep root) = true →
        displayPath root path = String.mk (path.data.drop (ensureTrailingSep root).data.length))
    ∧ (root = "" ∨ goStartsWith path (ensureTrailingSep root) = false →
        displayPath root path = path)
    ∧ displayPath "/a/b" "/a/b/c" = "c"
    ∧ displayPath "/a/b" "/a/bc" = "/a/bc"
    ∧ displayPath "/a/b" "/a/b" = "/a/b"
    ∧ displayPath "/home/u/proj" "/home/u/proj/src/x.go" = "src/x.go"
    ∧ displayPath "/home/u/proj" "/home/u/other/y.go" = "/home/u/other/y.go"
    ∧ displayPath "" "/home/u/other/y.go" = "/home/u/other/y.go" := by
  have key : displayPath root path = specDisplayPath root path := by
    rw [displayPath, specDisplayPath, ensureTrailingSep]
    by_cases h : root = ""
    · simp [h]
    · simp only [h, bne_iff_ne, ne_eq, not_false_eq_true, if_true, false_or, true_and]
      by_cases hs : goStartsWith path (if goEndsWith root "/" then root else root ++ "/") = true
      · rw [if_pos hs, if_pos hs, goTrimStart, if_pos hs]
      · rw [if_neg hs, if_neg hs]
  refine ⟨key, ?_, ?_, by decide, by decide, by decide, by decide, by decide, by decide⟩
  · intro h hs
    rw [key, specDisplayPath, if_pos ⟨h, hs⟩]
  · intro h
    rw [key, specDisplayPath, if_neg]
    rintro ⟨h1, h2⟩
    rcases h with h | h
    · exact h1 h
    · rw [h] at h2
      cases h2

/-- Witness for C7: the stripped and unchanged cases at the spec's examples. -/
theorem C7_display_path_stripping_witness :
    displayPath "/home/u/proj" "/home/u/proj/src/x.go" =
      String.mk ("/home/u/proj/src/x.go".data.drop
        (ensureTrailingSep "/home/u/proj").data.length)
    ∧ displayPath "/a/b" "/a/bc" = "/a/bc" :=
  ⟨(C7_display_path_stripping "/home/u/proj" "/home/u/proj/src/x.go").2.1
      (by decide) (by decide),
    (C7_display_path_stripping "/a/b" "/a/bc").2.2.1 (Or.inr (by decide))⟩

/-- C1 counterexample: with one existing file `/a` (readable content) and one
missing file `/b`, the claim says the assembled document is still emitted
with the block for `/a`; the code instead returns the warning status before
assembling anything — nothing is handed to the clipboard and no history is
recorded. -/
theorem C1_counterexample_missing_aborts :
    (yank (fun p => if p = "/a" then some "A" else none) true 0
        ⟨"default", "", "", "", ["/a", "/b"]⟩
        [⟨"/a", true, 1⟩, ⟨"/b", false, 0⟩]).assembled = none
    ∧ (yank (fun p => if p = "/a" then some "A" else none) true 0
        ⟨"default", "", "", "", ["/a", "/b"]⟩
        [⟨"/a", true, 1⟩, ⟨"/b", false, 0⟩]).status = "Warning: 1 file(s) missing"
    ∧ (yank (fun p => if p = "/a" then some "A" else none) true 0
        ⟨"default", "", "", "", ["/a", "/b"]⟩
        [⟨"/a", true, 1⟩, ⟨"/b", false, 0⟩]).history = none :=
  ⟨rfl, rfl, rfl⟩

/-- C1 (amended): when at least one requested path is missing from disk, the
yank reports a warning whose count equals the number of missing paths and
aborts — no document is assembled or copied and no history entry is created
(assembly is not best-effort). -/
theorem C1_missing_warning_aborts (fs : String → Option String) (clipOk : Bool)
    (now : Nat) (ctx : Context) (files : List FileInfo)
    (h : 0 < (files.filter (fun f => !f.Exists)).length) :
    yank fs clipOk now ctx files =
      { status := "Warning: " ++ toString (files.filter (fun f => !f.Exists)).length
          ++ " file(s) missing"
        assembled := none
        history := none } := by
  rw [yank]
  simp only [if_pos h]

/-- Witness for C1 at the counterexample's input. -/
theorem C1_missing_warning_aborts_witness :
    yank (fun p => if p = "/a" then some "A" else none) true 0
        ⟨"default", "", "", "", ["/a", "/b"]⟩
        [⟨"/a", true, 1⟩, ⟨"/b", false, 0⟩] =
      { status := "Warning: " ++ toString
          ([⟨"/a", true, 1⟩, (⟨"/b", false, 0⟩ : FileInfo)].filter
            (fun f => !f.Exists)).length ++ " file(s) missing"
        assembled := none
        history := none } :=
  C1_missing_warning_aborts (fun p => if p = "/a" then some "A" else none) true 0
    ⟨"default", "", "", "", ["/a", "/b"]⟩
    [⟨"/a", true, 1⟩, ⟨"/b", false, 0⟩] (by decide)

/-- C3 counterexample: every listed file exists but the clipboard copy
fails; the claim says the history snapshot is still created, yet the code
returns on the clipboard error before `SaveHistoryEntry` — no entry exists,
even though the document was assembled. -/
theorem C3_counterexample_clipboard_error :
    (yank (fun _ => some "A") false 0 ⟨"default", "", "", "", ["/a"]⟩
        [⟨"/a", true, 1⟩]).history = none
    ∧ (yank (fun _ => some "A") false 0 ⟨"default", "", "", "", ["/a"]⟩
        [⟨"/a", true, 1⟩]).assembled ≠ none
    ∧ (yank (fun _ => some "A") false 0 ⟨"default", "", "", "", ["/a"]⟩
        [⟨"/a", true, 1⟩]).status = "Clipboard error" :=
  ⟨rfl, by decide, rfl⟩

/-- C3 (amended): exactly one history snapshot — holding the pre-assembly
texts and the full requested file-path list — is created when no requested
path is missing and the clipboard copy succeeds; on a clipboard error (or a
missing file, per C1) no entry is created. -/
theorem C3_history_snapshot (fs : String → Option String) (now : Nat)
    (ctx : Context) (files : List FileInfo) (h : ∀ f ∈ files, f.Exists = true) :
    (yank fs true now ctx files).history =
      some
        { Timestamp := now
          ContextName := ctx.Name
          ProjectContext := ctx.ProjectContext
          Request := ctx.Request
          Files := files.map (·.Path) }
    ∧ (yank fs false now ctx files).history = none := by
  have hm : (files.filter (fun f => !f.Exists)).length = 0 := by
    rw [List.length_eq_zero, List.filter_eq_nil_iff]
    intro f hf
    simp [h f hf]
  constructor
  · rw [yank]
    simp only [hm, if_neg (lt_irrefl 0)]
    rfl
  · rw [yank]
    simp only [hm, if_neg (lt_irrefl 0)]
    rfl

/-- Witness for C3 at a concrete two-file context. -/
theorem C3_history_snapshot_witness :
    (yank (fun _ => some "A") true 7 ⟨"work", "", "pc", "req", ["/a", "/b"]⟩
        [⟨"/a", true, 1⟩, ⟨"/b", true, 2⟩]).history =
      some
        { Timestamp := 7
          ContextName := (⟨"work", "", "pc", "req", ["/a", "/b"]⟩ : Context).Name
          ProjectContext := (⟨"work", "", "pc", "req", ["/a", "/b"]⟩ : Context).ProjectContext
          Request := (⟨"work", "", "pc", "req", ["/a", "/b"]⟩ : Context).Request
          Files := [⟨"/a", true, 1⟩, (⟨"/b", true, 2⟩ : FileInfo)].map (·.Path) }
    ∧ (yank (fun _ => some "A") false 7 ⟨"work", "", "pc", "req", ["/a", "/b"]⟩
        [⟨"/a", true, 1⟩, ⟨"/b", true, 2⟩]).history = none :=
  C3_history_snapshot (fun _ => some "A") 7 ⟨"work", "", "pc", "req", ["/a", "/b"]⟩
    [⟨"/a", true, 1⟩, ⟨"/b", true, 2⟩] (by decide)

set_option maxRecDepth 8192 in
/-- C2 counterexample: the context lists `/a` (size 1) before `/b` (size 2)
— insertion order — but `refreshFiles` sorts by size descending, so the
assembled document carries the `/b` block before the `/a` block, which
differs from the insertion-order document the claim predicts. -/
theorem C2_counterexample_size_order :
    refreshFiles (fun p => if p = "/b" then some 2 else if p = "/a" then some 1 else none)
        ⟨"default", "", "", "", ["/a", "/b"]⟩ = [⟨"/b", true, 2⟩, ⟨"/a", true, 1⟩]
    ∧ (yank (fun p => if p = "/a" then some "A" else if p = "/b" then some "B" else none)
        true 0 ⟨"default", "", "", "", ["/a", "/b"]⟩
        (refreshFiles (fun p => if p = "/b" then some 2 else if p = "/a" then some 1 else none)
          ⟨"default", "", "", "", ["/a", "/b"]⟩)).assembled =
      some (preamble ++ String.join [fileBlock "/b" "B", fileBlock "/a" "A"])
    ∧ preamble ++ String.join [fileBlock "/b" "B", fileBlock "/a" "A"] ≠
      preamble ++ String.join [fileBlock "/a" "A", fileBlock "/b" "B"] := by
  refine ⟨by decide, by decide, by decide⟩

/-- C2 (amended): the `<file>` blocks appear in the order of the model's
file list, which is the context's file list sorted by size descending
(largest first) — a permutation of the insertion-order list, not the
insertion order itself. -/
theorem C2_blocks_follow_sorted_list (stat : String → Option Int)
    (fs : String → Option String) (now : Nat) (ctx : Context)
    (h : ∀ f ∈ refreshFiles stat ctx, f.Exists = true) :
    (yank fs true now ctx (refreshFiles stat ctx)).assembled =
      some (preamble ++ projectContextBlock ctx.ProjectContext ++ requestBlock ctx.Request ++
        String.join ((refreshFiles stat ctx).filterMap (fun f =>
          Option.map (fun content => fileBlock (displayPath ctx.ProjectRoot f.Path) content)
            (fs f.Path))))
    ∧ (refreshFiles stat ctx).Pairwise (fun a b => b.Size ≤ a.Size)
    ∧ (refreshFiles stat ctx).Perm (ctx.Files.map (buildFileInfo stat)) := by
  refine ⟨?_, ?_, List.perm_insertionSort _ _⟩
  · have hm : ((refreshFiles stat ctx).filter (fun f => !f.Exists)).length = 0 := by
      rw [List.length_eq_zero, List.filter_eq_nil_iff]
      intro f hf
      simp [h f hf]
    rw [yank]
    simp only [hm, if_neg (lt_irrefl 0)]
    have : ((refreshFiles stat ctx).filterMap (fun f =>
        if (!f.Exists) = true then none
        else match fs f.Path with
          | none => none
          | some content => some (fileBlock (displayPath ctx.ProjectRoot f.Path) content))) =
        ((refreshFiles stat ctx).filterMap (fun f =>
          Option.map (fun content => fileBlock (displayPath ctx.ProjectRoot f.Path) content)
            (fs f.Path))) := by
      apply List.filterMap_congr
      intro f hf
      rw [h f hf]
      cases fs f.Path <;> rfl
    simp only [this]
    rfl
  · have tot : IsTotal FileInfo (fun a b => b.Size ≤ a.Size) :=
      ⟨fun a b => le_total b.Size a.Size⟩
    have tr : IsTrans FileInfo (fun a b => b.Size ≤ a.Size) :=
      ⟨fun _ _ _ h1 h2 => le_trans h2 h1⟩
    exact List.sorted_insertionSort _ _

/-- Witness for C2: the sortedness conjunct at the counterexample's input. -/
theorem C2_blocks_follow_sorted_list_witness :
    (refreshFiles (fun p => if p = "/b" then some 2 else if p = "/a" then some 1 else none)
        ⟨"default", "", "", "", ["/a", "/b"]⟩).Pairwise (fun a b => b.Size ≤ a.Size) :=
  (C2_blocks_follow_sorted_list
    (fun p => if p = "/b" then some 2 else if p = "/a" then some 1 else none)
    (fun p => if p = "/a" then some "A" else if p = "/b" then some "B" else none)
    0 ⟨"default", "", "", "", ["/a", "/b"]⟩ (by decide)).2.1





/-- C8: a directory (including the root) whose path matches the exclude rule
has its whole subtree pruned — the walk callback runs on no descendant and
collects no file below it — and a matching regular file is omitted; in the
spec's example, expanding `/root` with pattern `**/node_modules/**` yields
exactly `[/root/src/main.go]` and the walk never visits
`/root/node_modules/pkg` or `/root/node_modules/pkg/index.js`. -/
theorem C8_exclude_pruning (excl : String → Bool) (path : String) (t : FSEntry)
    (h : excl path = true) :
    walkTree excl path t = ([path], [])
    ∧ ExpandDirectory "/root" nodeModulesTree (some nodeModulesRule) = ["/root/src/main.go"]
    ∧ "/root/node_modules/pkg" ∉
        (walkTree nodeModulesRule.ShouldExclude "/root" nodeModulesTree).1
    ∧ "/root/node_modules/pkg/index.js" ∉
        (walkTree nodeModulesRule.ShouldExclude "/root" nodeModulesTree).1 := by
  refine ⟨?_, by decide, by decide, by decide⟩
  cases t <;> simp [walkTree, h]

/-- Witness for C8: an excluded directory with one child yields a walk that
visits only the directory itself and collects nothing. -/
theorem C8_exclude_pruning_witness :
    walkTree (fun _ => true) "/x" (.dir "d" [.file "y"]) = (["/x"], []) :=
  (C8_exclude_pruning (fun _ => true) "/x" (.dir "d" [.file "y"]) rfl).1



set_option maxRecDepth 8192 in
/-- C5 counterexample: with 100 retained entries and a 101st entry whose
storage key `a.yaml` is lexicographically smaller than every retained key
(with the real key format this arises when the 101st save shares the second
of the oldest saves and its sanitized context name sorts first), pruning
deletes the NEW entry itself: the store is unchanged, so the removed entry
is not the pre-save lexicographically smallest one (`b0.yaml`), and the new
entry is not retained — contradicting the claim's final clause. -/
theorem C5_counterexample_new_key_pruned :
    SaveHistoryEntry store100 "a.yaml" = store100
    ∧ "a.yaml" ∉ store100
    ∧ "b0.yaml" ∈ store100
    ∧ store100.length = 100 := by
  refine ⟨by decide, by decide, by decide, by decide⟩

/-- C5 (amended): after saving a fresh 101st key into a duplicate-free store
of 100 `.yaml` keys, exactly 100 entries remain and the single removed entry
is the one whose key is lexicographically smallest among the 101 present
after the save (which is the smallest pre-save key whenever the new key is
not itself the smallest). -/
theorem C5_prune_smallest (store : List String) (newKey : String)
    (hnd : store.Nodup) (hlen : store.length = maxHistoryEntries)
    (hyaml : ∀ k ∈ store, goEndsWith k ".yaml" = true)
    (hnew : goEndsWith newKey ".yaml" = true) (hmem : newKey ∉ store) :
    (SaveHistoryEntry store newKey).length = maxHistoryEntries
    ∧ ∃ m ∈ store ++ [newKey], (∀ k ∈ store ++ [newKey], goStrLe m k = true)
        ∧ SaveHistoryEntry store newKey = (store ++ [newKey]).filter (fun k => k != m) := by
  have hrefl : ∀ s : String, goStrLe s s = true := fun s => by
    rcases charListLe_total s.data s.data with h | h <;> exact h
  have hcon : store.contains newKey = false := by
    rcases hc : store.contains newKey with _ | _
    · rfl
    · exact absurd (List.elem_iff.mp hc) hmem
  have hsave : SaveHistoryEntry store newKey = PruneHistory (store ++ [newKey]) := by
    rw [SaveHistoryEntry, hcon]
    rfl
  have hyamlAll : ∀ k ∈ store ++ [newKey], goEndsWith k ".yaml" = true := by
    intro k hk
    rcases List.mem_append.mp hk with hk | hk
    · exact hyaml k hk
    · rw [List.mem_singleton.mp hk]
      exact hnew
  have hfil : (store ++ [newKey]).filter (fun n => goEndsWith n ".yaml") = store ++ [newKey] :=
    List.filter_eq_self.mpr hyamlAll
  have hlenAll : (store ++ [newKey]).length = maxHistoryEntries + 1 := by
    simp [hlen]
  have hndAll : (store ++ [newKey]).Nodup := by
    rw [List.nodup_append]
    exact ⟨hnd, List.nodup_singleton _, by simpa [List.disjoint_singleton] using hmem⟩
  have tot : IsTotal String (fun a b => goStrLe a b = true) :=
    ⟨fun a b => charListLe_total a.data b.data⟩
  have tr : IsTrans String (fun a b => goStrLe a b = true) :=
    ⟨fun _ _ _ h₁ h₂ => charListLe_trans h₁ h₂⟩
  have hperm : (List.insertionSort (fun a b => goStrLe a b = true) (store ++ [newKey])).Perm
      (store ++ [newKey]) := List.perm_insertionSort _ _
  have hsortlen : (List.insertionSort (fun a b => goStrLe a b = true)
      (store ++ [newKey])).length = maxHistoryEntries + 1 := hperm.length_eq.trans hlenAll
  obtain ⟨m, rest, hms⟩ : ∃ m rest,
      List.insertionSort (fun a b => goStrLe a b = true) (store ++ [newKey]) = m :: rest := by
    cases hs : List.insertionSort (fun a b => goStrLe a b = true) (store ++ [newKey]) with
    | nil => rw [hs] at hsortlen; cases hsortlen
    | cons a l => exact ⟨a, l, rfl⟩
  have hsorted : List.Sorted (fun a b => goStrLe a b = true) (m :: rest) :=
    hms ▸ List.sorted_insertionSort _ _
  have hmAll : m ∈ store ++ [newKey] := hperm.mem_iff.mp (hms ▸ List.mem_cons_self m rest)
  have hmin : ∀ k ∈ store ++ [newKey], goStrLe m k = true := by
    intro k hk
    have hk' : k ∈ m :: rest := hms ▸ hperm.mem_iff.mpr hk
    rcases List.mem_cons.mp hk' with hk' | hk'
    · rw [hk']
      exact hrefl m
    · exact (List.sorted_cons.mp hsorted).1 k hk'
  have hres : SaveHistoryEntry store newKey =
      (store ++ [newKey]).filter (fun k => k != m) := by
    rw [hsave, PruneHistory]
    simp only [hfil, hlenAll, hms]
    rw [if_neg (by simp [maxHistoryEntries])]
    simp only [maxHistoryEntries, Nat.add_sub_cancel_left]
    have htake : (m :: rest).take (100 + 1 - 100) = [m] := by simp
    rw [htake]
    apply List.filter_congr
    intro n _
    cases h : n == m <;> simp [List.contains, List.elem, bne, h]
  refine ⟨?_, m, hmAll, hmin, hres⟩
  rw [hres, ← hndAll.erase_eq_filter m, List.length_erase_of_mem hmAll, hlenAll]
  rfl

set_option maxRecDepth 8192 in
set_option maxHeartbeats 2000000 in
/-- Witness for C5: saving a fresh largest key into the concrete 100-entry
store keeps exactly 100 entries and removes the minimum of the 101 keys. -/
theorem C5_prune_smallest_witness :
    (SaveHistoryEntry store100 "c.yaml").length = maxHistoryEntries
    ∧ ∃ m ∈ store100 ++ ["c.yaml"],
        (∀ k ∈ store100 ++ ["c.yaml"], goStrLe m k = true)
        ∧ SaveHistoryEntry store100 "c.yaml" =
          (store100 ++ ["c.yaml"]).filter (fun k => k != m) :=
  C5_prune_smallest store100 "c.yaml" (by decide) (by decide)
    (by decide) (by decide) (by decide)
